import Mathlib

/-!
# QUBO coefficient search: command line validation, escalation loop, evaluation table

A shallow embedding of `src/cmdline.go` (`Parameters`, `ParseCommandLine`) and
`src/main.go` (`outputEvaluation`, `main`).

* `float64` values are modelled by `F64`: NaN, the two infinities and the finite
  values (exact rationals; the two zeros compare equal and are one map key in Go, so
  they are one value here).  Only comparisons of floats occur in the code modelled.
* `OptimizeCoeffs` and `PrepareGAParameters` are called by `main` but defined elsewhere;
  they are the two fields of `GA`, arbitrary functions on the program state.
* `p.NAnc++` is arithmetic on a Go `int`: it wraps around at 64 bits (`wrapInt`).
-/

namespace QuboGA

/-! ## float64 -/

/-- A `float64` as far as comparison can tell: NaN, minus infinity, a finite value,
plus infinity. -/
inductive F64 where
  | nan : F64
  | negInf : F64
  | fin (q : ℚ) : F64
  | posInf : F64
deriving DecidableEq

namespace F64

/-- Go `math.IsNaN`. -/
def isNaN : F64 → Bool
  | nan => true
  | _ => false

/-- Go `x < y` on float64: false as soon as one operand is NaN. -/
def lt : F64 → F64 → Bool
  | negInf, fin _ => true
  | negInf, posInf => true
  | fin _, posInf => true
  | fin a, fin b => decide (a < b)
  | _, _ => false

/-- Go `x == y` on float64, also the equality of `map[float64]` keys: NaN equals nothing,
not even itself. -/
def eq : F64 → F64 → Bool
  | nan, _ => false
  | _, nan => false
  | x, y => decide (x = y)

/-- Go `x >= y` on float64: false as soon as one operand is NaN. -/
def ge (x y : F64) : Bool := lt y x || eq x y

end F64

/-! ## cmdline.go -/

/-- The struct `Parameters` of cmdline.go.  `TruthTable` and `Dense` (gonum `*mat.Dense`)
are declared outside the two source files and stay abstract.  The fields `NAnc` and
`SeparatedGen` are used by main.go (`p.NAnc++`, `p.NAnc == 1`, `p.SeparatedGen == -1`,
both printed with `%d`); their declaration is not in cmdline.go and they are taken to be
of type `int` like `NCols`.  The only arithmetic the two source files do on these fields
is `p.NAnc++`, which wraps around (`incrNAnc`). -/
structure Parameters (TruthTable Dense : Type) where
  TTName : String
  MinQ : F64
  MaxQ : F64
  MinL : F64
  MaxL : F64
  TT : TruthTable
  NCols : Int
  AllCols : Dense
  NAnc : Int
  SeparatedGen : Int

/-- The largest value of a Go `int` of 64 bits. -/
def maxInt : Int := 9223372036854775807

/-- The smallest value of a Go `int` of 64 bits. -/
def minInt : Int := -9223372036854775808

/-- The `int` that Go arithmetic gives when the exact result is `x`: signed overflow does
not panic, the result wraps around modulo 2^64 into the range from `minInt` to
`maxInt`. -/
def wrapInt (x : Int) : Int :=
  (x + 9223372036854775808) % 18446744073709551616 - 9223372036854775808

/-- The statement `p.NAnc++` of `main`. -/
def incrNAnc {TruthTable Dense : Type} (p : Parameters TruthTable Dense) :
    Parameters TruthTable Dense :=
  { p with NAnc := wrapInt (p.NAnc + 1) }

/-- What the `flag` package hands to `ParseCommandLine`: the value of each of the four
float flags when it is present on the command line (`strconv.ParseFloat` accepts any
float64, `NaN` and `Inf` included) and the first positional argument, if any. -/
structure CommandLine where
  qmin : Option F64
  qmax : Option F64
  lmin : Option F64
  lmax : Option F64
  arg0 : Option String

/-- The command line without any argument. -/
def CommandLine.empty : CommandLine := ⟨none, none, none, none, none⟩

/-- The message of the first `notify.Fatal` of `ParseCommandLine`. -/
def qFatal : String := "--qmin must specify a value that is less than --qmax"

/-- The message of the second `notify.Fatal` of `ParseCommandLine`. -/
def lFatal : String := "--lmin must specify a value that is less than --lmax"

/-- The function `ParseCommandLine`: the four bounds get the flag value or the default (-1, 1, -1, 1),
`TTName` the first positional argument when there is one; then the two checks, each
ending the process with `notify.Fatal` (here `Except.error` with the message). -/
def ParseCommandLine {TruthTable Dense : Type} (p : Parameters TruthTable Dense)
    (c : CommandLine) : Except String (Parameters TruthTable Dense) :=
  let p := { p with MinQ := c.qmin.getD (F64.fin (-1)) }
  let p := { p with MaxQ := c.qmax.getD (F64.fin 1) }
  let p := { p with MinL := c.lmin.getD (F64.fin (-1)) }
  let p := { p with MaxL := c.lmax.getD (F64.fin 1) }
  let p := match c.arg0 with
    | some a => { p with TTName := a }
    | none => p
  if F64.ge p.MinQ p.MaxQ then
    Except.error qFatal
  else if F64.ge p.MinL p.MaxL then
    Except.error lFatal
  else
    Except.ok p

/-- The outcome of `ParseCommandLine` as a function of the four bounds given on the
command line. -/
def validate (MinQ MaxQ MinL MaxL : F64) : Except String Unit :=
  (ParseCommandLine (⟨"", .nan, .nan, .nan, .nan, (), 0, (), 0, 0⟩ : Parameters Unit Unit)
    ⟨some MinQ, some MaxQ, some MinL, some MaxL, none⟩).map (fun _ => ())

/-! ## main.go: outputEvaluation -/

/-- The method `Less` of `sort.Float64Slice`, the order `sort.Float64s` sorts by:
`x[i] < x[j] || (isNaN(x[i]) && !isNaN(x[j]))`, NaN before every other value. -/
def Float64Slice.Less (x y : F64) : Bool :=
  F64.lt x y || (F64.isNaN x && !F64.isNaN y)

/-- One more pass of insertion at the front of an increasing slice. -/
def Float64s.insert (x : F64) : List F64 → List F64
  | [] => [x]
  | y :: ys => if Float64Slice.Less y x then y :: Float64s.insert x ys else x :: y :: ys

/-- The function `sort.Float64s`: the slice in increasing order of `Float64Slice.Less`.  Two values
neither of which is `Less` than the other are the same `F64`, so the sorted slice does
not depend on the sorting algorithm (`Float64s_unique` below); insertion sort computes
it here. -/
def Float64s : List F64 → List F64
  | [] => []
  | x :: xs => Float64s.insert x (Float64s xs)

/-- A Go `map[float64]int`: the entries in the order they were added, latest first. -/
abbrev RankMap := List (F64 × Nat)

/-- The two-valued lookup `r, ok := rank[v]`: the entry whose key is `==` to `v`.
A NaN key is `==` to nothing, so a lookup of NaN finds no entry. -/
def RankMap.lookup (rank : RankMap) (v : F64) : Option Nat :=
  (rank.find? (fun e => F64.eq e.1 v)).map (fun e => e.2)

/-- The one-valued lookup `rank[v]`: the zero value 0 when there is no entry. -/
def RankMap.get (rank : RankMap) (v : F64) : Nat :=
  (RankMap.lookup rank v).getD 0

/-- The assignment `rank[v] = r`. -/
def RankMap.set (rank : RankMap) (v : F64) (r : Nat) : RankMap :=
  (v, r) :: rank

/-- The loop `for i, v := range sorted` of `outputEvaluation`, from index `i` on: a value
that already has an entry is skipped, another gets the rank `i + 1`. -/
def rankLoop : List F64 → Nat → RankMap → RankMap
  | [], _, rank => rank
  | v :: rest, i, rank =>
    match RankMap.lookup rank v with
    | some _ => rankLoop rest (i + 1) rank
    | none => rankLoop rest (i + 1) (RankMap.set rank v (i + 1))

/-- The map `rank` of `outputEvaluation` once its first loop is over. -/
def rankOf (eval : List F64) : RankMap :=
  rankLoop (Float64s eval) 0 []

/-- The tally `nValid` of `outputEvaluation`: the number of true entries of `isValid`. -/
def nValidOf : List Bool → Nat
  | [] => 0
  | v :: rest => (if v then 1 else 0) + nValidOf rest

/-- The digit of `u` for `u < 2`, as `fmt` takes it from its digit string. -/
def digitChar (u : Nat) : Char := if u = 0 then '0' else '1'

/-- The base 2 case of `fmt.fmtInteger`: the digits are written right to left,
`for u >= 2 { buf[i] = '0' + u&1; u >>= 1 }` and then the leading digit.  `fuel` bounds
the number of turns of the loop; `u` turns are more than the loop ever takes. -/
def fmtBase2 : Nat → Nat → List Char → List Char
  | 0, u, buf => digitChar u :: buf
  | fuel + 1, u, buf =>
    if 2 ≤ u then fmtBase2 fuel (u >>> 1) (digitChar (u &&& 1) :: buf)
    else digitChar u :: buf

/-- The largest width `fmt` takes from an argument (`tooLarge` in fmt/print.go). -/
def maxWidth : Int := 1000000

/-- The text `fmt` writes for the verb `%0*b` with the width argument `wid` and a
non-negative operand `u`.  A width beyond `maxWidth` in magnitude is refused: `fmt`
writes `%!(BADWIDTH)` and formats without a width.  A negative width means left
justification, padded with blanks on the right.  Otherwise the digits are padded with
zeros on the left up to `wid` characters. -/
def fmtZeroStarB (wid : Int) (u : Nat) : String :=
  let digits := fmtBase2 u u []
  if wid > maxWidth ∨ wid < -maxWidth then
    String.mk ("%!(BADWIDTH)".toList ++ digits)
  else if wid < 0 then
    String.mk (digits ++ List.replicate (wid.natAbs - digits.length) ' ')
  else
    String.mk (List.replicate (wid.toNat - digits.length) '0' ++ digits)

/-- The operands of the `fmt.Printf` call that writes one row of the evaluation:
the row label (the text of `%0*b`), `validMark`, the energy `v`, the width `digits` of
the rank column, the rank `rank[v]` and `badRank`. -/
structure Row where
  label : String
  validMark : Char
  v : F64
  digits : Nat
  rank : Nat
  badRank : Char

/-- The body of the loop `for i, v := range eval` of `outputEvaluation` for one row. -/
def outputRow (NCols : Int) (rank : RankMap) (nValid digits : Nat) (i : Nat)
    (valid : Bool) (v : F64) : Row :=
  let validMark := if valid then '*' else ' '
  let badRank :=
    if valid && decide (RankMap.get rank v > nValid) then 'X'
    else if !valid && decide (RankMap.get rank v ≤ nValid) then 'X'
    else ' '
  ⟨fmtZeroStarB NCols i, validMark, v, digits, RankMap.get rank v, badRank⟩

/-- The loop `for i, v := range eval` of `outputEvaluation`, from row `i` on; `none` is
the run-time panic of `isValid[i]` when `isValid` is shorter than `eval`. -/
def outputRows (NCols : Int) (isValid : List Bool) (rank : RankMap) (nValid digits : Nat) :
    List F64 → Nat → Option (List Row)
  | [], _ => some []
  | v :: rest, i =>
    match isValid[i]? with
    | none => none
    | some valid =>
      (outputRows NCols isValid rank nValid digits rest (i + 1)).map
        (fun rows => outputRow NCols rank nValid digits i valid v :: rows)

/-- The function `outputEvaluation`: the rows it prints, in order. -/
def outputEvaluation {TruthTable Dense : Type} (p : Parameters TruthTable Dense)
    (isValid : List Bool) (eval : List F64) : Option (List Row) :=
  let rank := rankOf eval
  let nValid := nValidOf isValid
  let digits := (Nat.repr (eval.length + 1)).length
  outputRows p.NCols isValid rank nValid digits eval 0

/-! ## main.go: main -/

/-- What the escalation loop of `main` does, in order; kept in `MainState.log`. -/
inductive Event where
  | optimize : Event
  | increment : Event
  | prepare : Event
deriving DecidableEq

/-- The two functions `main` calls that are defined outside the two source files.  Both
take `&p` and so may change any field of the parameters; `W` is the rest of the program
state they read and write (the random generator, package-level variables).
`OptimizeCoeffs` returns its three results, the `*QUBO`, the badness and the number of
generations, next to the state it leaves. -/
structure GA (W TruthTable Dense QUBO : Type) where
  OptimizeCoeffs : W → Parameters TruthTable Dense →
    (QUBO × F64 × Nat) × W × Parameters TruthTable Dense
  PrepareGAParameters : W → Parameters TruthTable Dense → W × Parameters TruthTable Dense

/-- The variables of `main` around its loop: `p`, the three variables declared before the
loop (`qubo` is `none` while it holds the nil of its declaration), the state `world` of
the rest of the program, and the log of the events so far. -/
structure MainState (W TruthTable Dense QUBO : Type) where
  p : Parameters TruthTable Dense
  world : W
  qubo : Option QUBO
  bad : F64
  nGen : Nat
  log : List Event

section Main

variable {W TruthTable Dense QUBO : Type}

/-- The statement `qubo, bad, nGen = OptimizeCoeffs(&p)`. -/
def callOptimize (ga : GA W TruthTable Dense QUBO) (s : MainState W TruthTable Dense QUBO) :
    MainState W TruthTable Dense QUBO :=
  let r := ga.OptimizeCoeffs s.world s.p
  { p := r.2.2, world := r.2.1, qubo := some r.1.1, bad := r.1.2.1, nGen := r.1.2.2,
    log := s.log ++ [Event.optimize] }

/-- The branch `if p.SeparatedGen == -1` of the loop body: the two status messages change
nothing; then `p.NAnc++` and `PrepareGAParameters(&p)`. -/
def restart (ga : GA W TruthTable Dense QUBO) (s : MainState W TruthTable Dense QUBO) :
    MainState W TruthTable Dense QUBO :=
  let r := ga.PrepareGAParameters s.world (incrNAnc s.p)
  { s with p := r.2, world := r.1, log := s.log ++ [Event.increment, Event.prepare] }

/-- One turn of the loop `for p.SeparatedGen == -1` of `main`. -/
def loopBody (ga : GA W TruthTable Dense QUBO) (s : MainState W TruthTable Dense QUBO) :
    MainState W TruthTable Dense QUBO :=
  let s1 := callOptimize ga s
  if s1.p.SeparatedGen = -1 then restart ga s1 else s1

/-- The state of `main` after at most `n` turns of its loop: a turn is taken as long as
the loop condition `p.SeparatedGen == -1` holds. -/
def runLoop (ga : GA W TruthTable Dense QUBO) :
    Nat → MainState W TruthTable Dense QUBO → MainState W TruthTable Dense QUBO
  | 0, s => s
  | n + 1, s => if s.p.SeparatedGen = -1 then runLoop ga n (loopBody ga s) else s

/-- The loop `for p.SeparatedGen == -1` of `main` with `fuel` turns at most: the state at
the exit of the loop, `none` when the loop is still running after `fuel` turns. -/
def escalate (ga : GA W TruthTable Dense QUBO) :
    Nat → MainState W TruthTable Dense QUBO → Option (MainState W TruthTable Dense QUBO)
  | 0, s => if s.p.SeparatedGen = -1 then none else some s
  | fuel + 1, s => if s.p.SeparatedGen = -1 then escalate ga fuel (loopBody ga s) else some s

/-- How a run of `main` ends, as far as the two source files tell. -/
inductive Outcome (QUBO : Type) where
  | fatal (msg : String) : Outcome QUBO
  | running : Outcome QUBO
  | nilDereference (nGen : Nat) (bad : F64) : Outcome QUBO
  | report (nGen : Nat) (bad : F64) (qubo : QUBO) : Outcome QUBO

/-- What `main` prints after its loop: the number of generations, the badness, and then
the fields and methods of `qubo`, a nil dereference when `qubo` is still nil. -/
def reportOf (s : MainState W TruthTable Dense QUBO) : Outcome QUBO :=
  match s.qubo with
  | none => Outcome.nilDereference s.nGen s.bad
  | some q => Outcome.report s.nGen s.bad q

/-- The state of `main` when it reaches its loop from the parameters `p`: the zero values
of the three declarations. -/
def loopEntry (w : W) (p : Parameters TruthTable Dense) : MainState W TruthTable Dense QUBO :=
  { p := p, world := w, qubo := none, bad := F64.fin 0, nGen := 0, log := [] }

/-- The function `main` up to its report: `ParseCommandLine` on the zero value `p0` of `Parameters`,
`PrepareGAParameters`, the loop with `fuel` turns at most, the report. -/
def main (ga : GA W TruthTable Dense QUBO) (fuel : Nat) (w : W)
    (p0 : Parameters TruthTable Dense) (c : CommandLine) : Outcome QUBO :=
  match ParseCommandLine p0 c with
  | Except.error msg => Outcome.fatal msg
  | Except.ok p =>
    let r := ga.PrepareGAParameters w p
    match escalate ga fuel (loopEntry r.1 r.2) with
    | none => Outcome.running
    | some s => reportOf s

/-- The number of assignment columns, 2^(NCols+NAnc). -/
def assignmentColumns (p : Parameters TruthTable Dense) : Nat :=
  2 ^ (p.NCols + p.NAnc).toNat

/-- A run of the GA from the state `s` of the loop fails: the loop takes the turn
(`p.SeparatedGen == -1`) and `OptimizeCoeffs` leaves `SeparatedGen` at -1. -/
def FailedRun (ga : GA W TruthTable Dense QUBO) (s : MainState W TruthTable Dense QUBO) :
    Prop :=
  s.p.SeparatedGen = -1 ∧ (callOptimize ga s).p.SeparatedGen = -1

/-- Modelled from the spec: `OptimizeCoeffs` and `PrepareGAParameters` are not in the two
source files; by the data model of the spec `NAnc` is mutated only by the escalation
controller between GA runs and the truth table with its column count is read-only once
constructed.  `KeepsCountsAt ga s` says so of the two calls made in the turn of the loop
taken from the state `s`: the call of `OptimizeCoeffs` leaves `NAnc` and `NCols` as they
are in `s`, and the call of `PrepareGAParameters` of the restart leaves them as
`p.NAnc++` handed them over. -/
def KeepsCountsAt (ga : GA W TruthTable Dense QUBO) (s : MainState W TruthTable Dense QUBO) :
    Prop :=
  ((callOptimize ga s).p.NAnc = s.p.NAnc ∧ (callOptimize ga s).p.NCols = s.p.NCols) ∧
  ((restart ga (callOptimize ga s)).p.NAnc = (incrNAnc (callOptimize ga s).p).NAnc ∧
    (restart ga (callOptimize ga s)).p.NCols = (callOptimize ga s).p.NCols)

end Main

/-- A GA for the examples: `OptimizeCoeffs` separates (in generation 7) as soon as there
are at least `need` ancillary variables and fails before; the QUBO it returns is the
number of its run.  `PrepareGAParameters` changes nothing. -/
def exampleGA (need : Int) : GA Nat Unit Unit Nat where
  OptimizeCoeffs := fun w p =>
    ((w + 1, F64.fin 0, 100), w + 1,
      { p with SeparatedGen := if need ≤ p.NAnc then 7 else -1 })
  PrepareGAParameters := fun w p => (w, p)

/-- A GA that never separates: `OptimizeCoeffs` always leaves `SeparatedGen` at -1. -/
def failingGA : GA Nat Unit Unit Nat where
  OptimizeCoeffs := fun w p => ((w + 1, F64.fin 0, 100), w + 1, { p with SeparatedGen := -1 })
  PrepareGAParameters := fun w p => (w, p)

/-- A GA that never separates and whose `OptimizeCoeffs` writes 0 to `NAnc`, which a
function that takes `&p` can do. -/
def resettingGA : GA Nat Unit Unit Nat where
  OptimizeCoeffs := fun w p =>
    ((w + 1, F64.fin 0, 100), w + 1, { p with SeparatedGen := -1, NAnc := 0 })
  PrepareGAParameters := fun w p => (w, p)

/-- Parameters for the examples: the default bounds, two columns, no ancillary variable,
not separated yet. -/
def exampleParameters : Parameters Unit Unit :=
  ⟨"", F64.fin (-1), F64.fin 1, F64.fin (-1), F64.fin 1, (), 2, (), 0, -1⟩

theorem f64_eq_iff (x y : F64) : F64.eq x y = true ↔ x ≠ F64.nan ∧ x = y := by
  cases x <;> cases y <;> simp [F64.eq]

theorem f64_lt_irrefl (x : F64) : F64.lt x x = false := by
  cases x <;> simp [F64.lt]

theorem f64_lt_trans {x y z : F64} (h1 : F64.lt x y = true) (h2 : F64.lt y z = true) :
    F64.lt x z = true := by
  cases x <;> cases y <;> cases z <;> simp_all [F64.lt]
  exact lt_trans h1 h2

theorem f64_lt_asymm {x y : F64} (h : F64.lt x y = true) : F64.lt y x = false := by
  cases x <;> cases y <;> simp_all [F64.lt]
  exact le_of_lt h

theorem f64_lt_trichotomy (x y : F64) (hx : x ≠ F64.nan) (hy : y ≠ F64.nan) :
    F64.lt x y = true ∨ x = y ∨ F64.lt y x = true := by
  cases x <;> cases y <;> simp_all [F64.lt]
  exact lt_trichotomy _ _

theorem f64_ge_iff_not_lt (x y : F64) (hx : x ≠ F64.nan) (hy : y ≠ F64.nan) :
    F64.ge x y = true ↔ F64.lt x y = false := by
  cases x <;> cases y <;> simp_all [F64.ge, F64.lt, F64.eq]
  rw [le_iff_lt_or_eq]
  constructor
  · rintro (h | h)
    · exact Or.inl h
    · exact Or.inr h.symm
  · rintro (h | h)
    · exact Or.inl h
    · exact Or.inr h.symm

theorem f64_lt_not_nan_left {x y : F64} (h : F64.lt x y = true) : x ≠ F64.nan := by
  cases x <;> simp_all [F64.lt]

theorem f64_lt_not_nan_right {x y : F64} (h : F64.lt x y = true) : y ≠ F64.nan := by
  cases x <;> cases y <;> simp_all [F64.lt]

/-! ## ParseCommandLine -/

/-- The validation of `ParseCommandLine` read off the code: it succeeds exactly when
neither `MinQ >= MaxQ` nor `MinL >= MaxL` holds in float64 comparison, and the first
check that fails gives the message. -/
theorem validate_eq (MinQ MaxQ MinL MaxL : F64) :
    validate MinQ MaxQ MinL MaxL =
      if F64.ge MinQ MaxQ then Except.error qFatal
      else if F64.ge MinL MaxL then Except.error lFatal
      else Except.ok () := by
  unfold validate ParseCommandLine
  simp only [Option.getD_some]
  split_ifs <;> rfl

/-- For bounds none of which is NaN the validation succeeds if and only if
`MinQ < MaxQ` and `MinL < MaxL`, and reports the message on --qmin and --qmax when
`MinQ >= MaxQ`, else the message on --lmin and --lmax. -/
theorem validate_of_not_nan (MinQ MaxQ MinL MaxL : F64)
    (h1 : MinQ ≠ F64.nan) (h2 : MaxQ ≠ F64.nan) (h3 : MinL ≠ F64.nan) (h4 : MaxL ≠ F64.nan) :
    (validate MinQ MaxQ MinL MaxL = Except.ok () ↔
      F64.lt MinQ MaxQ = true ∧ F64.lt MinL MaxL = true) ∧
    (F64.lt MinQ MaxQ = false → validate MinQ MaxQ MinL MaxL = Except.error qFatal) ∧
    (F64.lt MinQ MaxQ = true → F64.lt MinL MaxL = false →
      validate MinQ MaxQ MinL MaxL = Except.error lFatal) := by
  rw [validate_eq]
  have hq := f64_ge_iff_not_lt MinQ MaxQ h1 h2
  have hl := f64_ge_iff_not_lt MinL MaxL h3 h4
  by_cases a : F64.lt MinQ MaxQ = true <;> by_cases b : F64.lt MinL MaxL = true <;>
    simp_all

theorem validate_of_not_nan_witness :
    validate (F64.fin (-1)) (F64.fin 1) (F64.fin (-1)) (F64.fin 1) = Except.ok () ∧
    validate (F64.fin 1) (F64.fin 1) (F64.fin (-1)) (F64.fin 1) = Except.error qFatal ∧
    validate (F64.fin (-1)) (F64.fin 1) (F64.fin 2) (F64.fin 2) = Except.error lFatal := by
  have h := validate_of_not_nan (F64.fin (-1)) (F64.fin 1) (F64.fin (-1)) (F64.fin 1)
    (by simp) (by simp) (by simp) (by simp)
  have h2 := validate_of_not_nan (F64.fin 1) (F64.fin 1) (F64.fin (-1)) (F64.fin 1)
    (by simp) (by simp) (by simp) (by simp)
  have h3 := validate_of_not_nan (F64.fin (-1)) (F64.fin 1) (F64.fin 2) (F64.fin 2)
    (by simp) (by simp) (by simp) (by simp)
  refine ⟨h.1.2 ⟨by simp [F64.lt], by simp [F64.lt]⟩, h2.2.1 (by simp [F64.lt]),
    h3.2.2 (by simp [F64.lt]) (by simp [F64.lt])⟩

/-- C1: the validation of `ParseCommandLine` accepts `--qmin=NaN` with the other bounds at
their defaults, although `MinQ < MaxQ` does not hold: both `NaN >= 1` and `NaN < 1` are
false in float64 comparison, so no `notify.Fatal` is reached. -/
theorem ParseCommandLine_accepts_NaN :
    ParseCommandLine exampleParameters ⟨some F64.nan, none, none, none, none⟩ =
      Except.ok { exampleParameters with MinQ := F64.nan } ∧
    validate F64.nan (F64.fin 1) (F64.fin (-1)) (F64.fin 1) = Except.ok () ∧
    F64.lt F64.nan (F64.fin 1) = false := by
  refine ⟨?_, ?_, rfl⟩
  · simp [ParseCommandLine, F64.ge, F64.lt, F64.eq, exampleParameters]
    norm_num
  · rw [validate_eq]; simp [F64.ge, F64.lt, F64.eq]
    norm_num

/-! ## The escalation loop of main -/

section MainFacts

variable {W TruthTable Dense QUBO : Type}

theorem runLoop_succ (ga : GA W TruthTable Dense QUBO) (n : Nat)
    (s : MainState W TruthTable Dense QUBO) :
    runLoop ga (n + 1) s =
      if (runLoop ga n s).p.SeparatedGen = -1 then loopBody ga (runLoop ga n s)
      else runLoop ga n s := by
  induction n generalizing s with
  | zero => simp [runLoop]
  | succ n ih =>
    by_cases h : s.p.SeparatedGen = -1
    · have e1 : runLoop ga (n + 1 + 1) s = runLoop ga (n + 1) (loopBody ga s) := by
        rw [runLoop, if_pos h]
      have e2 : runLoop ga (n + 1) s = runLoop ga n (loopBody ga s) := by
        rw [runLoop, if_pos h]
      rw [e1, e2, ih]
    · have e1 : runLoop ga (n + 1 + 1) s = s := by rw [runLoop, if_neg h]
      have e2 : runLoop ga (n + 1) s = s := by rw [runLoop, if_neg h]
      rw [e1, e2, if_neg h]

theorem escalate_eq_runLoop (ga : GA W TruthTable Dense QUBO) (fuel : Nat)
    (s : MainState W TruthTable Dense QUBO) :
    escalate ga fuel s =
      if (runLoop ga fuel s).p.SeparatedGen = -1 then none else some (runLoop ga fuel s) := by
  induction fuel generalizing s with
  | zero => simp [escalate, runLoop]
  | succ n ih =>
    by_cases h : s.p.SeparatedGen = -1
    · rw [escalate, if_pos h, ih, runLoop, if_pos h]
    · rw [escalate, if_neg h, runLoop, if_neg h, if_neg h]

theorem runLoop_of_exit (ga : GA W TruthTable Dense QUBO) (n : Nat)
    (s : MainState W TruthTable Dense QUBO) (h : s.p.SeparatedGen ≠ -1) :
    runLoop ga n s = s := by
  cases n with
  | zero => rfl
  | succ n => rw [runLoop, if_neg h]

theorem runLoop_add (ga : GA W TruthTable Dense QUBO) (m n : Nat)
    (s : MainState W TruthTable Dense QUBO) :
    runLoop ga (m + n) s = runLoop ga n (runLoop ga m s) := by
  induction m generalizing s with
  | zero => simp [runLoop]
  | succ m ih =>
    by_cases h : s.p.SeparatedGen = -1
    · have e : m + 1 + n = (m + n) + 1 := by omega
      rw [e, runLoop, if_pos h, ih, runLoop, if_pos h]
    · rw [runLoop_of_exit ga _ s h, runLoop_of_exit ga _ s h, runLoop_of_exit ga _ s h]

theorem loopBody_of_failed (ga : GA W TruthTable Dense QUBO)
    (s : MainState W TruthTable Dense QUBO) (h : FailedRun ga s) :
    loopBody ga s = restart ga (callOptimize ga s) := by
  unfold loopBody
  simp only
  rw [if_pos h.2]

theorem loopBody_of_separated (ga : GA W TruthTable Dense QUBO)
    (s : MainState W TruthTable Dense QUBO) (h : (callOptimize ga s).p.SeparatedGen ≠ -1) :
    loopBody ga s = callOptimize ga s := by
  unfold loopBody
  simp only
  rw [if_neg h]

theorem runLoop_succ_of_failed (ga : GA W TruthTable Dense QUBO) (n : Nat)
    (s : MainState W TruthTable Dense QUBO) (h : FailedRun ga (runLoop ga n s)) :
    runLoop ga (n + 1) s = restart ga (callOptimize ga (runLoop ga n s)) := by
  rw [runLoop_succ, if_pos h.1, loopBody_of_failed ga _ h]

theorem wrapInt_of_range (x : Int) (h1 : minInt ≤ x) (h2 : x ≤ maxInt) : wrapInt x = x := by
  unfold minInt at h1
  unfold maxInt at h2
  unfold wrapInt
  omega

theorem wrapInt_succ (x : Int) : wrapInt (wrapInt x + 1) = wrapInt (x + 1) := by
  unfold wrapInt
  omega

theorem restart_NAnc (ga : GA W TruthTable Dense QUBO)
    (s : MainState W TruthTable Dense QUBO) (hk : KeepsCountsAt ga s) :
    (restart ga (callOptimize ga s)).p.NAnc = wrapInt (s.p.NAnc + 1) ∧
    (restart ga (callOptimize ga s)).p.NCols = s.p.NCols := by
  obtain ⟨⟨h1, h2⟩, h3, h4⟩ := hk
  constructor
  · rw [h3]
    show wrapInt ((callOptimize ga s).p.NAnc + 1) = _
    rw [h1]
  · rw [h4, h2]

/-- The restart hands to `PrepareGAParameters` the parameters that `OptimizeCoeffs` left,
with `NAnc` incremented once, and keeps what that call returns. -/
theorem restart_eq (ga : GA W TruthTable Dense QUBO)
    (s : MainState W TruthTable Dense QUBO) :
    (restart ga (callOptimize ga s)).p =
      (ga.PrepareGAParameters (ga.OptimizeCoeffs s.world s.p).2.1
        (incrNAnc (ga.OptimizeCoeffs s.world s.p).2.2)).2 ∧
    (restart ga (callOptimize ga s)).world =
      (ga.PrepareGAParameters (ga.OptimizeCoeffs s.world s.p).2.1
        (incrNAnc (ga.OptimizeCoeffs s.world s.p).2.2)).1 :=
  ⟨rfl, rfl⟩

theorem restart_log (ga : GA W TruthTable Dense QUBO)
    (s : MainState W TruthTable Dense QUBO) :
    (restart ga (callOptimize ga s)).log =
      s.log ++ [Event.optimize, Event.increment, Event.prepare] := by
  simp [restart, callOptimize]

theorem assignmentColumns_succ (p q : Parameters TruthTable Dense)
    (h0 : 0 ≤ p.NCols + p.NAnc) (hc : q.NCols = p.NCols) (ha : q.NAnc = p.NAnc + 1) :
    assignmentColumns q = 2 * assignmentColumns p := by
  unfold assignmentColumns
  rw [hc, ha]
  have e : (p.NCols + (p.NAnc + 1)).toNat = (p.NCols + p.NAnc).toNat + 1 := by omega
  rw [e, pow_succ, Nat.mul_comm]

/-- The log after `k` failed runs in a row. -/
theorem runLoop_failed_log (ga : GA W TruthTable Dense QUBO)
    (s : MainState W TruthTable Dense QUBO) (k : Nat)
    (hfail : ∀ j, j < k → FailedRun ga (runLoop ga j s)) :
    (runLoop ga k s).log =
      s.log ++ (List.replicate k [Event.optimize, Event.increment, Event.prepare]).flatten := by
  induction k with
  | zero => simp [runLoop]
  | succ k ih =>
    have ih1 := ih (fun j hj => hfail j (by omega))
    rw [runLoop_succ_of_failed ga k s (hfail k (by omega)), restart_log, ih1,
      List.replicate_succ', List.flatten_append]
    simp

/-- The counts after `k` failed runs in a row whose calls leave the counts alone. -/
theorem runLoop_failed_runs (ga : GA W TruthTable Dense QUBO)
    (s : MainState W TruthTable Dense QUBO) (k : Nat)
    (hfail : ∀ j, j < k → FailedRun ga (runLoop ga j s))
    (hk : ∀ j, j < k → KeepsCountsAt ga (runLoop ga j s))
    (h1 : minInt ≤ s.p.NAnc) (h2 : s.p.NAnc ≤ maxInt) :
    (runLoop ga k s).p.NAnc = wrapInt (s.p.NAnc + k) ∧
    (runLoop ga k s).p.NCols = s.p.NCols := by
  induction k with
  | zero =>
    refine ⟨?_, rfl⟩
    show s.p.NAnc = wrapInt (s.p.NAnc + ((0 : Nat) : Int))
    rw [Nat.cast_zero, add_zero, wrapInt_of_range _ h1 h2]
  | succ k ih =>
    have ih1 := ih (fun j hj => hfail j (by omega)) (fun j hj => hk j (by omega))
    rw [runLoop_succ_of_failed ga k s (hfail k (by omega))]
    have hr := restart_NAnc ga (runLoop ga k s) (hk k (by omega))
    refine ⟨?_, ?_⟩
    · rw [hr.1, ih1.1, wrapInt_succ]
      congr 1
      push_cast
      ring
    · rw [hr.2, ih1.2]

/-- When every call the loop makes leaves the sentinel in place, every turn is a failed
run. -/
theorem runLoop_always_failing (ga : GA W TruthTable Dense QUBO)
    (s : MainState W TruthTable Dense QUBO) (hs : s.p.SeparatedGen = -1)
    (hopt : ∀ n, (callOptimize ga (runLoop ga n s)).p.SeparatedGen = -1)
    (hprep : ∀ n, (restart ga (callOptimize ga (runLoop ga n s))).p.SeparatedGen = -1)
    (n : Nat) : FailedRun ga (runLoop ga n s) := by
  induction n with
  | zero => exact ⟨hs, hopt 0⟩
  | succ n ih =>
    refine ⟨?_, hopt (n + 1)⟩
    rw [runLoop_succ_of_failed ga n s ih]
    exact hprep n

/-- The GA `failingGA` fails on every run of the loop and leaves the counts alone. -/
theorem failingGA_facts (s : MainState Nat Unit Unit Nat) (hs : s.p.SeparatedGen = -1)
    (n : Nat) :
    FailedRun failingGA (runLoop failingGA n s) ∧
    KeepsCountsAt failingGA (runLoop failingGA n s) :=
  ⟨runLoop_always_failing failingGA s hs (fun _ => rfl) (fun _ => rfl) n,
    ⟨⟨rfl, rfl⟩, rfl, rfl⟩⟩

theorem runLoop_entered_failed (ga : GA W TruthTable Dense QUBO)
    (s : MainState W TruthTable Dense QUBO) (k : Nat)
    (hentry : (runLoop ga k s).p.SeparatedGen = -1) (j : Nat) (hj : j < k) :
    FailedRun ga (runLoop ga j s) := by
  obtain ⟨d, rfl⟩ : ∃ d, k = (j + 1) + d := ⟨k - (j + 1), by omega⟩
  have h1 : (runLoop ga j s).p.SeparatedGen = -1 := by
    by_contra h
    have e : j + 1 + d = j + (1 + d) := by omega
    rw [e, runLoop_add, runLoop_of_exit ga _ _ h] at hentry
    exact h hentry
  refine ⟨h1, ?_⟩
  by_contra h
  have hstep : runLoop ga (j + 1) s = callOptimize ga (runLoop ga j s) := by
    rw [runLoop_succ, if_pos h1, loopBody_of_separated ga _ h]
  have hexit : (runLoop ga (j + 1) s).p.SeparatedGen ≠ -1 := by
    rw [hstep]; exact h
  rw [runLoop_add, runLoop_of_exit ga _ _ hexit] at hentry
  exact hexit hentry

theorem loopBody_qubo (ga : GA W TruthTable Dense QUBO)
    (s : MainState W TruthTable Dense QUBO) :
    Event.optimize ∈ (loopBody ga s).log ∧
    ∃ w1 p1, (loopBody ga s).qubo = some (ga.OptimizeCoeffs w1 p1).1.1 ∧
      (loopBody ga s).bad = (ga.OptimizeCoeffs w1 p1).1.2.1 ∧
      (loopBody ga s).nGen = (ga.OptimizeCoeffs w1 p1).1.2.2 := by
  unfold loopBody
  simp only
  split_ifs
  · exact ⟨by simp [restart, callOptimize], s.world, s.p, rfl, rfl, rfl⟩
  · exact ⟨by simp [callOptimize], s.world, s.p, rfl, rfl, rfl⟩

theorem escalate_first_separation (ga : GA W TruthTable Dense QUBO)
    (s : MainState W TruthTable Dense QUBO) (k : Nat)
    (hentry : (runLoop ga k s).p.SeparatedGen = -1)
    (hsep : (ga.OptimizeCoeffs (runLoop ga k s).world (runLoop ga k s).p).2.2.SeparatedGen
      ≠ -1)
    (fuel : Nat) (hfuel : k + 1 ≤ fuel) :
    escalate ga fuel s = some (callOptimize ga (runLoop ga k s)) := by
  have hstep : runLoop ga (k + 1) s = callOptimize ga (runLoop ga k s) := by
    rw [runLoop_succ, if_pos hentry, loopBody_of_separated ga _ hsep]
  have hexit : (runLoop ga (k + 1) s).p.SeparatedGen ≠ -1 := by
    rw [hstep]; exact hsep
  obtain ⟨d, rfl⟩ : ∃ d, fuel = (k + 1) + d := ⟨fuel - (k + 1), by omega⟩
  rw [escalate_eq_runLoop, runLoop_add, runLoop_of_exit ga d _ hexit, if_neg hexit, hstep]

end MainFacts

section MainClaims

variable {W TruthTable Dense QUBO : Type}

/-- C2, as the code has it.  When the first `k` GA runs of the loop entered in state `s`
fail, each of them is followed by exactly one `p.NAnc++` and one call of
`PrepareGAParameters`: the state after the restart is what `PrepareGAParameters` returns
on the parameters `OptimizeCoeffs` left with `NAnc` incremented once, the log grows by
optimize, increment, prepare for each run, and the loop goes on from the state reached.
When moreover the calls made in these `k` turns leave `NAnc` and `NCols` alone
(`KeepsCountsAt`), `NAnc` starts in the range of `int`, `NAnc + k` does not pass `maxInt`
and `NCols + NAnc` is not negative, then `NAnc` after the `k` runs is its initial value
plus `k`, every restart strictly increases `NAnc` by 1 and doubles the number
2^(NCols+NAnc) of assignment columns, which is then strictly larger than before. -/
theorem escalation_restart_increases_NAnc (ga : GA W TruthTable Dense QUBO)
    (s : MainState W TruthTable Dense QUBO) (k : Nat)
    (hfail : ∀ j, j < k → FailedRun ga (runLoop ga j s)) :
    (∀ j, j < k →
      (runLoop ga (j + 1) s).p =
        (ga.PrepareGAParameters
          (ga.OptimizeCoeffs (runLoop ga j s).world (runLoop ga j s).p).2.1
          (incrNAnc (ga.OptimizeCoeffs (runLoop ga j s).world (runLoop ga j s).p).2.2)).2 ∧
      (runLoop ga (j + 1) s).world =
        (ga.PrepareGAParameters
          (ga.OptimizeCoeffs (runLoop ga j s).world (runLoop ga j s).p).2.1
          (incrNAnc (ga.OptimizeCoeffs (runLoop ga j s).world (runLoop ga j s).p).2.2)).1) ∧
    (runLoop ga k s).log =
      s.log ++ (List.replicate k [Event.optimize, Event.increment, Event.prepare]).flatten ∧
    (∀ fuel, escalate ga (k + fuel) s = escalate ga fuel (runLoop ga k s)) ∧
    ((∀ j, j < k → KeepsCountsAt ga (runLoop ga j s)) →
      minInt ≤ s.p.NAnc → s.p.NAnc + k ≤ maxInt → 0 ≤ s.p.NCols + s.p.NAnc →
      (runLoop ga k s).p.NAnc = s.p.NAnc + k ∧
      ∀ j, j < k →
        (runLoop ga (j + 1) s).p.NAnc = (runLoop ga j s).p.NAnc + 1 ∧
        (runLoop ga j s).p.NAnc < (runLoop ga (j + 1) s).p.NAnc ∧
        assignmentColumns (runLoop ga (j + 1) s).p =
          2 * assignmentColumns (runLoop ga j s).p ∧
        assignmentColumns (runLoop ga j s).p <
          assignmentColumns (runLoop ga (j + 1) s).p) := by
  refine ⟨?_, runLoop_failed_log ga s k hfail, ?_, ?_⟩
  · intro j hj
    rw [runLoop_succ_of_failed ga j s (hfail j hj)]
    exact restart_eq ga (runLoop ga j s)
  · intro fuel
    rw [escalate_eq_runLoop, escalate_eq_runLoop, runLoop_add]
  · intro hk h1 h2 h0
    have hval : ∀ j, j ≤ k → (runLoop ga j s).p.NAnc = s.p.NAnc + j ∧
        (runLoop ga j s).p.NCols = s.p.NCols := by
      intro j hj
      have h := runLoop_failed_runs ga s j (fun i hi => hfail i (by omega))
        (fun i hi => hk i (by omega)) h1 (by omega)
      refine ⟨?_, h.2⟩
      rw [h.1, wrapInt_of_range _ (by omega) (by omega)]
    refine ⟨(hval k (le_refl k)).1, ?_⟩
    intro j hj
    have hj0 := hval j (by omega)
    have hj1 := hval (j + 1) (by omega)
    have hinc : (runLoop ga (j + 1) s).p.NAnc = (runLoop ga j s).p.NAnc + 1 := by
      rw [hj0.1, hj1.1]; push_cast; ring
    have hcols : assignmentColumns (runLoop ga (j + 1) s).p =
        2 * assignmentColumns (runLoop ga j s).p := by
      apply assignmentColumns_succ _ _ _ _ hinc
      · rw [hj0.1, hj0.2]; omega
      · rw [hj0.2, hj1.2]
    refine ⟨hinc, by omega, hcols, ?_⟩
    have hpos : 0 < assignmentColumns (runLoop ga j s).p := by
      unfold assignmentColumns; positivity
    omega

theorem escalation_restart_increases_NAnc_witness :
    (runLoop (exampleGA 2) 2 (loopEntry 0 exampleParameters)).p.NAnc =
      (loopEntry 0 exampleParameters : MainState Nat Unit Unit Nat).p.NAnc + (2 : Nat) ∧
    assignmentColumns (runLoop (exampleGA 2) 1 (loopEntry 0 exampleParameters)).p = 8 ∧
    assignmentColumns (runLoop (exampleGA 2) 2 (loopEntry 0 exampleParameters)).p = 16 := by
  have h := escalation_restart_increases_NAnc (exampleGA 2)
    (loopEntry 0 exampleParameters) 2
    (by
      intro j hj
      interval_cases j <;>
        simp [FailedRun, runLoop, loopBody, callOptimize, restart, incrNAnc, wrapInt,
          exampleGA, loopEntry, exampleParameters])
  have h4 := h.2.2.2 (fun _ _ => ⟨⟨rfl, rfl⟩, rfl, rfl⟩)
    (by simp [minInt, loopEntry, exampleParameters])
    (by simp [maxInt, loopEntry, exampleParameters])
    (by simp [loopEntry, exampleParameters])
  refine ⟨h4.1, ?_, ?_⟩ <;>
    simp [assignmentColumns, runLoop, loopBody, callOptimize, restart, incrNAnc, wrapInt,
      exampleGA, loopEntry, exampleParameters]

/-- C2 as stated fails in two ways.  At `NAnc = maxInt` the restart after a failed run
wraps `NAnc` around to `minInt`: it is not increased and is not the initial value plus 1.
And with `resettingGA`, whose `OptimizeCoeffs` writes 0 to `NAnc`, one failed run started
at `NAnc = 5` ends with `NAnc = 1`, not 6. -/
theorem escalation_increase_counterexample :
    (FailedRun failingGA (loopEntry 0 { exampleParameters with NAnc := maxInt }) ∧
      (runLoop failingGA 1 (loopEntry 0 { exampleParameters with NAnc := maxInt })).p.NAnc =
        minInt ∧
      minInt < maxInt ∧ minInt ≠ maxInt + 1) ∧
    (FailedRun resettingGA (loopEntry 0 { exampleParameters with NAnc := 5 }) ∧
      (runLoop resettingGA 1 (loopEntry 0 { exampleParameters with NAnc := 5 })).p.NAnc =
        1) := by
  refine ⟨⟨⟨rfl, rfl⟩, ?_, by decide, by decide⟩, ⟨rfl, rfl⟩, ?_⟩
  · simp [runLoop, loopBody, callOptimize, restart, incrNAnc, wrapInt, failingGA, loopEntry,
      exampleParameters, maxInt, minInt]
  · simp [runLoop, loopBody, callOptimize, restart, incrNAnc, wrapInt, resettingGA,
      loopEntry, exampleParameters]

/-- C3: the escalation loop ends at the first GA run that separates.  When the loop
entered in state `s` reaches its turn number `k + 1` and the call of `OptimizeCoeffs` in
that turn leaves `SeparatedGen` different from -1, then the `k` runs before all failed
and the loop, given at least `k + 1` turns, exits in the state right after that call: the
parameters are as the call left them (no `p.NAnc++`, no `PrepareGAParameters`), the log
ends with that call, and `main` reports the three values that call returned. -/
theorem escalation_stops_at_first_separation (ga : GA W TruthTable Dense QUBO)
    (s : MainState W TruthTable Dense QUBO) (k : Nat)
    (hentry : (runLoop ga k s).p.SeparatedGen = -1)
    (hsep : (ga.OptimizeCoeffs (runLoop ga k s).world (runLoop ga k s).p).2.2.SeparatedGen
      ≠ -1)
    (fuel : Nat) (hfuel : k + 1 ≤ fuel) :
    (∀ j, j < k → FailedRun ga (runLoop ga j s)) ∧
    (∃ final, escalate ga fuel s = some final ∧
      final.p = (ga.OptimizeCoeffs (runLoop ga k s).world (runLoop ga k s).p).2.2 ∧
      final.world = (ga.OptimizeCoeffs (runLoop ga k s).world (runLoop ga k s).p).2.1 ∧
      final.log = (runLoop ga k s).log ++ [Event.optimize] ∧
      reportOf final = Outcome.report
        (ga.OptimizeCoeffs (runLoop ga k s).world (runLoop ga k s).p).1.2.2
        (ga.OptimizeCoeffs (runLoop ga k s).world (runLoop ga k s).p).1.2.1
        (ga.OptimizeCoeffs (runLoop ga k s).world (runLoop ga k s).p).1.1) ∧
    (∀ (w : W) (p0 p : Parameters TruthTable Dense) (c : CommandLine),
      ParseCommandLine p0 c = Except.ok p →
      s = loopEntry (ga.PrepareGAParameters w p).1 (ga.PrepareGAParameters w p).2 →
      main ga fuel w p0 c = Outcome.report
        (ga.OptimizeCoeffs (runLoop ga k s).world (runLoop ga k s).p).1.2.2
        (ga.OptimizeCoeffs (runLoop ga k s).world (runLoop ga k s).p).1.2.1
        (ga.OptimizeCoeffs (runLoop ga k s).world (runLoop ga k s).p).1.1) := by
  have hesc := escalate_first_separation ga s k hentry hsep fuel hfuel
  refine ⟨fun j hj => runLoop_entered_failed ga s k hentry j hj,
    ⟨callOptimize ga (runLoop ga k s), hesc, rfl, rfl, rfl, rfl⟩, ?_⟩
  intro w p0 p c hparse hs
  unfold main
  rw [hparse]
  simp only
  rw [← hs, hesc]
  rfl

theorem escalation_stops_at_first_separation_witness :
    ∃ final, escalate (exampleGA 2) 5 (loopEntry 0 exampleParameters) = some final ∧
      final.p.NAnc = 2 ∧ reportOf final = Outcome.report 100 (F64.fin 0) 3 := by
  obtain ⟨_, ⟨final, h1, h2, _, _, h5⟩, _⟩ := escalation_stops_at_first_separation (exampleGA 2)
    (loopEntry 0 exampleParameters) 2
    (by simp [runLoop, loopBody, callOptimize, restart, incrNAnc, wrapInt, exampleGA,
          loopEntry, exampleParameters])
    (by simp [runLoop, loopBody, callOptimize, restart, incrNAnc, wrapInt, exampleGA,
          loopEntry, exampleParameters])
    5 (by decide)
  refine ⟨final, h1, ?_, ?_⟩
  · rw [h2]
    simp [runLoop, loopBody, callOptimize, restart, incrNAnc, wrapInt, exampleGA, loopEntry,
      exampleParameters]
  · rw [h5]
    simp [runLoop, loopBody, callOptimize, restart, incrNAnc, wrapInt, exampleGA, loopEntry,
      exampleParameters]

/-- C4, as the code has it: the escalation loop has no ceiling on `NAnc` and no error
exit.  When the loop is entered with `SeparatedGen` at -1 and every call it makes leaves
the sentinel in place (each call of `OptimizeCoeffs` leaves `SeparatedGen` at -1, and so
does each call of `PrepareGAParameters` in a restart), the loop is still running after
any number of turns: the next turn is again a failed run followed by `p.NAnc++` and
`PrepareGAParameters`, and the log has one increment for each turn so far.  When moreover
the calls made so far leave `NAnc` and `NCols` alone and `NAnc` starts in the range of
`int`, `NAnc` is its initial value plus the number of turns, wrapped around into the
range of `int`. -/
theorem escalation_has_no_ceiling (ga : GA W TruthTable Dense QUBO)
    (s : MainState W TruthTable Dense QUBO) (hs : s.p.SeparatedGen = -1)
    (hopt : ∀ n, (callOptimize ga (runLoop ga n s)).p.SeparatedGen = -1)
    (hprep : ∀ n, (restart ga (callOptimize ga (runLoop ga n s))).p.SeparatedGen = -1)
    (fuel : Nat) :
    escalate ga fuel s = none ∧
    (runLoop ga fuel s).p.SeparatedGen = -1 ∧
    runLoop ga (fuel + 1) s = restart ga (callOptimize ga (runLoop ga fuel s)) ∧
    (runLoop ga fuel s).log =
      s.log ++
        (List.replicate fuel [Event.optimize, Event.increment, Event.prepare]).flatten ∧
    ((∀ j, j < fuel → KeepsCountsAt ga (runLoop ga j s)) →
      minInt ≤ s.p.NAnc → s.p.NAnc ≤ maxInt →
      (runLoop ga fuel s).p.NAnc = wrapInt (s.p.NAnc + fuel)) := by
  have hf := runLoop_always_failing ga s hs hopt hprep
  refine ⟨?_, (hf fuel).1, runLoop_succ_of_failed ga fuel s (hf fuel),
    runLoop_failed_log ga s fuel (fun j _ => hf j), ?_⟩
  · rw [escalate_eq_runLoop, if_pos (hf fuel).1]
  · intro hk h1 h2
    exact (runLoop_failed_runs ga s fuel (fun j _ => hf j) hk h1 h2).1

theorem escalation_has_no_ceiling_witness :
    escalate failingGA 1000 (loopEntry 0 exampleParameters) = none ∧
    (runLoop failingGA 1000 (loopEntry 0 exampleParameters)).p.NAnc = 1000 := by
  have h := escalation_has_no_ceiling failingGA (loopEntry 0 exampleParameters) rfl
    (fun _ => rfl) (fun _ => rfl) 1000
  have h5 := h.2.2.2.2 (fun _ _ => ⟨⟨rfl, rfl⟩, rfl, rfl⟩)
    (by simp [minInt, loopEntry, exampleParameters])
    (by simp [maxInt, loopEntry, exampleParameters])
  refine ⟨h.1, ?_⟩
  rw [h5]
  simp [wrapInt, loopEntry, exampleParameters]

/-- C4 as stated fails: with the GA `failingGA`, which fails on every run, the loop has
not stopped after any number of turns; every turn ends with one more `p.NAnc++`, so that
after `n` turns `NAnc` is `n` wrapped around into the range of `int`, and no error is
raised. -/
theorem escalation_ceiling_counterexample :
    (∀ fuel, escalate failingGA fuel (loopEntry 0 exampleParameters) = none) ∧
    (∀ n, runLoop failingGA (n + 1) (loopEntry 0 exampleParameters) =
      restart failingGA (callOptimize failingGA
        (runLoop failingGA n (loopEntry 0 exampleParameters)))) ∧
    (∀ n : Nat, (runLoop failingGA n (loopEntry 0 exampleParameters)).p.NAnc =
      wrapInt n) := by
  have hf := fun n => (failingGA_facts (loopEntry 0 exampleParameters) rfl n).1
  have hk := fun n => (failingGA_facts (loopEntry 0 exampleParameters) rfl n).2
  refine ⟨?_, ?_, ?_⟩
  · intro fuel
    rw [escalate_eq_runLoop, if_pos (hf fuel).1]
  · intro n
    exact runLoop_succ_of_failed failingGA n _ (hf n)
  · intro n
    have h := (runLoop_failed_runs failingGA (loopEntry 0 exampleParameters) n
      (fun j _ => hf j) (fun j _ => hk j)
      (by simp [minInt, loopEntry, exampleParameters])
      (by simp [maxInt, loopEntry, exampleParameters])).1
    rw [h]
    simp [loopEntry, exampleParameters]

/-- C9: when `main` enters its loop with `SeparatedGen` at -1, from the first turn on the
variable `qubo` holds the `*QUBO` returned by a call of `OptimizeCoeffs` (and `bad`,
`nGen` the other two results of that call), so the state in which the loop exits is
reported with that value and not with the nil of the declaration.  When `SeparatedGen`
differs from -1 at the first test the body is skipped: the loop exits at once, `qubo` is
still nil and the report dereferences nil. -/
theorem qubo_set_before_report (ga : GA W TruthTable Dense QUBO) (w : W)
    (p : Parameters TruthTable Dense) :
    (p.SeparatedGen = -1 → ∀ n, 1 ≤ n →
      Event.optimize ∈ (runLoop ga n (loopEntry w p)).log ∧
      ∃ w1 p1, (runLoop ga n (loopEntry w p)).qubo = some (ga.OptimizeCoeffs w1 p1).1.1 ∧
        (runLoop ga n (loopEntry w p)).bad = (ga.OptimizeCoeffs w1 p1).1.2.1 ∧
        (runLoop ga n (loopEntry w p)).nGen = (ga.OptimizeCoeffs w1 p1).1.2.2) ∧
    (p.SeparatedGen = -1 → ∀ fuel r, escalate ga fuel (loopEntry w p) = some r →
      1 ≤ fuel ∧ r = runLoop ga fuel (loopEntry w p) ∧
      ∃ q, r.qubo = some q ∧ reportOf r = Outcome.report r.nGen r.bad q) ∧
    (p.SeparatedGen ≠ -1 → ∀ fuel,
      escalate ga fuel (loopEntry w p) = some (loopEntry w p) ∧
      (loopEntry w p : MainState W TruthTable Dense QUBO).qubo = none ∧
      reportOf (loopEntry w p : MainState W TruthTable Dense QUBO) =
        Outcome.nilDereference 0 (F64.fin 0)) := by
  have hrun : p.SeparatedGen = -1 → ∀ n, 1 ≤ n →
      Event.optimize ∈ (runLoop ga n (loopEntry w p)).log ∧
      ∃ w1 p1, (runLoop ga n (loopEntry w p)).qubo = some (ga.OptimizeCoeffs w1 p1).1.1 ∧
        (runLoop ga n (loopEntry w p)).bad = (ga.OptimizeCoeffs w1 p1).1.2.1 ∧
        (runLoop ga n (loopEntry w p)).nGen = (ga.OptimizeCoeffs w1 p1).1.2.2 := by
    intro hp n hn
    obtain ⟨m, rfl⟩ : ∃ m, n = m + 1 := ⟨n - 1, by omega⟩
    clear hn
    induction m with
    | zero =>
      have e : runLoop ga (0 + 1) (loopEntry w p) = loopBody ga (loopEntry w p) := by
        rw [runLoop, if_pos (by exact hp), runLoop]
      rw [e]
      exact loopBody_qubo ga (loopEntry w p)
    | succ m ih =>
      rw [runLoop_succ]
      split_ifs with h
      · exact loopBody_qubo ga _
      · exact ih
  refine ⟨hrun, ?_, ?_⟩
  · intro hp fuel r hr
    rw [escalate_eq_runLoop] at hr
    split_ifs at hr with h
    have hr1 : runLoop ga fuel (loopEntry w p) = r := by simpa using hr
    have hfuel : 1 ≤ fuel := by
      rcases Nat.eq_zero_or_pos fuel with h0 | h0
      · subst h0
        exact absurd hp h
      · exact h0
    obtain ⟨_, w1, p1, hq, _, _⟩ := hrun hp fuel hfuel
    rw [hr1] at hq
    exact ⟨hfuel, hr1.symm, _, hq, by simp [reportOf, hq]⟩
  · intro hp fuel
    have hp1 : (loopEntry w p : MainState W TruthTable Dense QUBO).p.SeparatedGen ≠ -1 := hp
    refine ⟨?_, rfl, rfl⟩
    rw [escalate_eq_runLoop, runLoop_of_exit ga fuel _ hp1, if_neg hp1]

theorem qubo_set_before_report_witness :
    (∃ q, (runLoop (exampleGA 0) 1 (loopEntry 0 exampleParameters)).qubo = some q) ∧
    escalate (exampleGA 0) 3
      (loopEntry 0 { exampleParameters with SeparatedGen := 0 }) =
        some (loopEntry 0 { exampleParameters with SeparatedGen := 0 }) := by
  have h := qubo_set_before_report (exampleGA 0) 0 exampleParameters
  have h2 := qubo_set_before_report (exampleGA 0) 0
    { exampleParameters with SeparatedGen := 0 }
  obtain ⟨_, w1, p1, hq, _⟩ := h.1 rfl 1 (by decide)
  exact ⟨⟨_, hq⟩, (h2.2.2 (by decide) 3).1⟩

end MainClaims

/-! ## sort.Float64s -/

theorem less_of_lt {x y : F64} (h : F64.lt x y = true) : Float64Slice.Less x y = true := by
  simp [Float64Slice.Less, h]

theorem less_iff_lt {x y : F64} (hx : x ≠ F64.nan) :
    Float64Slice.Less x y = true ↔ F64.lt x y = true := by
  cases x <;> simp_all [Float64Slice.Less, F64.isNaN]

theorem less_irrefl (x : F64) : Float64Slice.Less x x = false := by
  cases x <;> simp [Float64Slice.Less, F64.lt, F64.isNaN]

theorem less_asymm {x y : F64} (h : Float64Slice.Less x y = true) :
    Float64Slice.Less y x = false := by
  cases x <;> cases y <;> simp_all [Float64Slice.Less, F64.lt, F64.isNaN]
  exact le_of_lt h

theorem not_less_trans {x y z : F64} (h1 : Float64Slice.Less y x = false)
    (h2 : Float64Slice.Less z y = false) : Float64Slice.Less z x = false := by
  cases x <;> cases y <;> cases z <;> simp_all [Float64Slice.Less, F64.lt, F64.isNaN]
  exact le_trans h1 h2

theorem less_trichotomy (x y : F64) :
    Float64Slice.Less x y = true ∨ x = y ∨ Float64Slice.Less y x = true := by
  cases x <;> cases y <;> simp_all [Float64Slice.Less, F64.lt, F64.isNaN]
  exact lt_trichotomy _ _

theorem less_nan_left {y : F64} (hy : y ≠ F64.nan) : Float64Slice.Less F64.nan y = true := by
  cases y <;> simp_all [Float64Slice.Less, F64.lt, F64.isNaN]

theorem insert_perm (x : F64) (l : List F64) : (Float64s.insert x l).Perm (x :: l) := by
  induction l with
  | nil => simp [Float64s.insert]
  | cons y ys ih =>
    unfold Float64s.insert
    split_ifs
    · exact (List.Perm.cons y ih).trans (List.Perm.swap x y ys)
    · exact List.Perm.refl _

theorem Float64s_perm (l : List F64) : (Float64s l).Perm l := by
  induction l with
  | nil => simp [Float64s]
  | cons x xs ih =>
    unfold Float64s
    exact (insert_perm x _).trans (List.Perm.cons x ih)

theorem insert_sorted (x : F64) (l : List F64)
    (h : l.Pairwise (fun a b => Float64Slice.Less b a = false)) :
    (Float64s.insert x l).Pairwise (fun a b => Float64Slice.Less b a = false) := by
  induction l with
  | nil => simp [Float64s.insert]
  | cons y ys ih =>
    rw [List.pairwise_cons] at h
    unfold Float64s.insert
    split_ifs with hyx
    · rw [List.pairwise_cons]
      refine ⟨?_, ih h.2⟩
      intro z hz
      rcases (List.Perm.mem_iff (insert_perm x ys)).1 hz with hz1
      rcases List.mem_cons.1 hz1 with rfl | hz2
      · exact less_asymm hyx
      · exact h.1 z hz2
    · have hyx1 : Float64Slice.Less y x = false := by simpa using hyx
      rw [List.pairwise_cons]
      refine ⟨?_, List.pairwise_cons.2 h⟩
      intro z hz
      rcases List.mem_cons.1 hz with rfl | hz2
      · exact hyx1
      · exact not_less_trans hyx1 (h.1 z hz2)

theorem Float64s_sorted (l : List F64) :
    (Float64s l).Pairwise (fun a b => Float64Slice.Less b a = false) := by
  induction l with
  | nil => simp [Float64s]
  | cons x xs ih =>
    unfold Float64s
    exact insert_sorted x _ ih

/-- The result of `sort.Float64s` does not depend on the sorting algorithm: a
rearrangement of the slice that is increasing for `Less` is the slice `Float64s` gives. -/
theorem Float64s_unique (l l1 : List F64) (hp : l1.Perm l)
    (hs : l1.Pairwise (fun a b => Float64Slice.Less b a = false)) : l1 = Float64s l := by
  haveI : IsAntisymm F64 (fun a b => Float64Slice.Less b a = false) :=
    ⟨fun a b h1 h2 => by
      rcases less_trichotomy a b with h | h | h
      · rw [h] at h2; exact absurd h2 (by simp)
      · exact h
      · rw [h] at h1; exact absurd h1 (by simp)⟩
  exact List.eq_of_perm_of_sorted (hp.trans (Float64s_perm l).symm) hs (Float64s_sorted l)

/-! ## The rank map -/

theorem lookup_nan (m : RankMap) : RankMap.lookup m F64.nan = none := by
  unfold RankMap.lookup
  have h : m.find? (fun e => F64.eq e.1 F64.nan) = none := by
    rw [List.find?_eq_none]
    intro e _
    cases e.1 <;> simp [F64.eq]
  rw [h]; rfl

theorem lookup_set_self (m : RankMap) (v : F64) (r : Nat) (hv : v ≠ F64.nan) :
    RankMap.lookup (RankMap.set m v r) v = some r := by
  have h : F64.eq v v = true := (f64_eq_iff v v).2 ⟨hv, rfl⟩
  simp [RankMap.lookup, RankMap.set, List.find?_cons, h]

theorem lookup_set_ne (m : RankMap) (a v : F64) (r : Nat) (h : a ≠ v) :
    RankMap.lookup (RankMap.set m a r) v = RankMap.lookup m v := by
  have h1 : F64.eq a v = false := by
    rcases hb : F64.eq a v with _ | _
    · rfl
    · exact absurd ((f64_eq_iff a v).1 hb).2 h
  simp [RankMap.lookup, RankMap.set, List.find?_cons, h1]

theorem rankLoop_keeps (l : List F64) (i : Nat) (m : RankMap) (v : F64) (r : Nat)
    (h : RankMap.lookup m v = some r) : RankMap.lookup (rankLoop l i m) v = some r := by
  induction l generalizing i m with
  | nil => simpa [rankLoop] using h
  | cons a t ih =>
    unfold rankLoop
    split
    · exact ih _ _ h
    · rename_i hnone
      apply ih
      have hne : a ≠ v := by
        rintro rfl
        rw [h] at hnone
        exact absurd hnone (by simp)
      rw [lookup_set_ne _ _ _ _ hne]
      exact h

theorem rankLoop_sorted (l : List F64) (i : Nat) (m : RankMap) (v : F64)
    (hs : l.Pairwise (fun a b => Float64Slice.Less b a = false))
    (hv : v ≠ F64.nan) (hmem : v ∈ l) (hm : RankMap.lookup m v = none) :
    RankMap.lookup (rankLoop l i m) v =
      some (i + l.countP (fun x => Float64Slice.Less x v) + 1) := by
  induction l generalizing i m with
  | nil => simp at hmem
  | cons a t ih =>
    rw [List.pairwise_cons] at hs
    by_cases hav : a = v
    · subst hav
      have hzero : t.countP (fun x => Float64Slice.Less x a) = 0 := by
        rw [List.countP_eq_zero]
        intro x hx
        simp [hs.1 x hx]
      have hstep : rankLoop (a :: t) i m = rankLoop t (i + 1) (RankMap.set m a (i + 1)) := by
        rw [rankLoop, hm]
      rw [hstep, rankLoop_keeps t (i + 1) _ a (i + 1) (lookup_set_self m a (i + 1) hv)]
      rw [List.countP_cons, hzero, less_irrefl]
      simp
    · have hvt : v ∈ t := by
        rcases List.mem_cons.1 hmem with h | h
        · exact absurd h.symm hav
        · exact h
      have hless : Float64Slice.Less a v = true := by
        rcases less_trichotomy a v with h | h | h
        · exact h
        · exact absurd h hav
        · rw [hs.1 v hvt] at h; exact absurd h (by simp)
      have hcount : (a :: t).countP (fun x => Float64Slice.Less x v) =
          t.countP (fun x => Float64Slice.Less x v) + 1 := by
        rw [List.countP_cons, hless]; simp
      rw [hcount]
      unfold rankLoop
      split
      · rw [ih (i + 1) m hs.2 hvt hm]
        congr 1; omega
      · rw [ih (i + 1) _ hs.2 hvt (by rw [lookup_set_ne _ _ _ _ hav]; exact hm)]
        congr 1; omega

/-- The rank that the map of `outputEvaluation` gives to a value of `eval` that is not
NaN: one more than the number of entries that `Less` puts before it. -/
theorem rankOf_get (eval : List F64) (v : F64) (hv : v ≠ F64.nan) (hmem : v ∈ eval) :
    RankMap.get (rankOf eval) v = 1 + eval.countP (fun x => Float64Slice.Less x v) := by
  unfold RankMap.get rankOf
  rw [rankLoop_sorted (Float64s eval) 0 [] v (Float64s_sorted eval) hv
    ((List.Perm.mem_iff (Float64s_perm eval)).2 hmem) rfl]
  rw [List.Perm.countP_eq _ (Float64s_perm eval)]
  simp; omega

/-- The rank printed for a NaN energy is 0: the lookup of NaN in a Go map finds nothing. -/
theorem rankOf_get_nan (eval : List F64) : RankMap.get (rankOf eval) F64.nan = 0 := by
  unfold RankMap.get
  rw [lookup_nan]; rfl

theorem countP_less_eq_lt (eval : List F64) (v : F64) (hnan : ∀ x ∈ eval, x ≠ F64.nan) :
    eval.countP (fun x => Float64Slice.Less x v) = eval.countP (fun x => F64.lt x v) := by
  apply List.countP_congr
  intro x hx
  simp only [less_iff_lt (hnan x hx)]

/-! ## The rows of outputEvaluation -/

theorem nValidOf_eq_countP (isValid : List Bool) :
    nValidOf isValid = isValid.countP (fun b => b) := by
  induction isValid with
  | nil => rfl
  | cons b t ih =>
    rw [nValidOf, ih, List.countP_cons]
    cases b <;> simp
    omega

theorem outputRows_eq (NCols : Int) (isValid : List Bool) (rank : RankMap)
    (nValid digits : Nat) (l : List F64) (i0 : Nat) (h : i0 + l.length ≤ isValid.length) :
    outputRows NCols isValid rank nValid digits l i0 =
      some ((List.range l.length).map (fun j =>
        outputRow NCols rank nValid digits (i0 + j) (isValid.getD (i0 + j) false)
          (l.getD j F64.nan))) := by
  induction l generalizing i0 with
  | nil => simp [outputRows]
  | cons v t ih =>
    have hlt : i0 < isValid.length := by simp at h; omega
    have hget : isValid[i0]? = some (isValid.getD i0 false) := by
      rw [List.getD_eq_getElem?_getD, List.getElem?_eq_getElem hlt]; rfl
    unfold outputRows
    rw [hget]
    simp only
    rw [ih (i0 + 1) (by simp at h ⊢; omega)]
    simp only [Option.map_some', List.length_cons]
    rw [List.range_succ_eq_map, List.map_cons, List.map_map]
    congr 2
    apply List.map_congr_left
    intro j _
    simp only [Function.comp, Nat.succ_eq_add_one, List.getD_cons_succ]
    congr 1
    · omega
    · congr 1; omega

/-- The rows of `outputEvaluation` when `isValid` is at least as long as `eval`: row `j`
is made from `isValid[j]` and `eval[j]`. -/
theorem outputEvaluation_eq {TruthTable Dense : Type} (p : Parameters TruthTable Dense)
    (isValid : List Bool) (eval : List F64) (h : eval.length ≤ isValid.length) :
    outputEvaluation p isValid eval =
      some ((List.range eval.length).map (fun j =>
        outputRow p.NCols (rankOf eval) (nValidOf isValid)
          (Nat.repr (eval.length + 1)).length j (isValid.getD j false)
          (eval.getD j F64.nan))) := by
  unfold outputEvaluation
  simp only
  rw [outputRows_eq _ _ _ _ _ _ 0 (by omega)]
  simp

theorem rows_getElem? {TruthTable Dense : Type} (p : Parameters TruthTable Dense)
    (isValid : List Bool) (eval : List F64) (i : Nat) (row : Row)
    (h : ((List.range eval.length).map (fun j =>
        outputRow p.NCols (rankOf eval) (nValidOf isValid)
          (Nat.repr (eval.length + 1)).length j (isValid.getD j false)
          (eval.getD j F64.nan)))[i]? = some row) :
    i < eval.length ∧ eval[i]? = some row.v ∧ row.v ∈ eval ∧
    row.rank = RankMap.get (rankOf eval) row.v ∧
    row.label = fmtZeroStarB p.NCols i ∧
    row.badRank =
      (if isValid.getD i false && decide (RankMap.get (rankOf eval) row.v > nValidOf isValid)
        then 'X'
      else if !isValid.getD i false &&
        decide (RankMap.get (rankOf eval) row.v ≤ nValidOf isValid) then 'X'
      else ' ') := by
  rw [List.getElem?_map] at h
  have hi : i < eval.length := by
    by_contra hc
    rw [List.getElem?_eq_none (by simp; omega)] at h
    simp at h
  rw [List.getElem?_range hi] at h
  simp only [Option.map_some', Option.some.injEq] at h
  have hv : row.v = eval.getD i F64.nan := by rw [← h]; rfl
  have hgetD : eval.getD i F64.nan = eval[i] := by
    rw [List.getD_eq_getElem?_getD, List.getElem?_eq_getElem hi]; rfl
  refine ⟨hi, ?_, ?_, ?_, ?_, ?_⟩
  · rw [hv, hgetD, List.getElem?_eq_getElem hi]
  · rw [hv, hgetD]; exact List.getElem_mem hi
  · rw [hv, ← h]; rfl
  · rw [← h]; rfl
  · rw [hv, ← h]; rfl

theorem outputRow_rank (NCols : Int) (rank : RankMap) (nValid digits i : Nat) (b : Bool)
    (v : F64) : (outputRow NCols rank nValid digits i b v).rank = RankMap.get rank v := rfl

/-! ## Counting -/

theorem countP_lt_of_imp {α : Type} (l : List α) (p q : α → Bool)
    (himp : ∀ x ∈ l, p x = true → q x = true) (a : α) (ha : a ∈ l) (hq : q a = true)
    (hp : p a = false) : l.countP p < l.countP q := by
  induction l with
  | nil => simp at ha
  | cons b t ih =>
    have hmono : t.countP p ≤ t.countP q :=
      List.countP_mono_left (fun x hx h => himp x (List.mem_cons_of_mem _ hx) h)
    rw [List.countP_cons, List.countP_cons]
    rcases List.mem_cons.1 ha with rfl | hat
    · simp [hq, hp]; omega
    · have := ih (fun x hx h => himp x (List.mem_cons_of_mem _ hx) h) hat
      by_cases hpb : p b = true
      · simp [hpb, himp b (List.mem_cons_self _ _) hpb]; omega
      · simp [hpb]; split_ifs <;> omega

theorem countP_split {α : Type} (l : List α) (p q r : α → Bool)
    (h : ∀ x ∈ l, p x = (q x || r x)) (hd : ∀ x ∈ l, ¬ (q x = true ∧ r x = true)) :
    l.countP p = l.countP q + l.countP r := by
  induction l with
  | nil => simp
  | cons b t ih =>
    have := ih (fun x hx => h x (List.mem_cons_of_mem _ hx))
      (fun x hx => hd x (List.mem_cons_of_mem _ hx))
    rw [List.countP_cons, List.countP_cons, List.countP_cons, this]
    have hb := h b (List.mem_cons_self _ _)
    have hdb := hd b (List.mem_cons_self _ _)
    cases hq : q b <;> cases hr : r b <;> simp_all <;> omega

theorem sorted_indexOf (l : List F64) (v : F64)
    (hs : l.Pairwise (fun a b => Float64Slice.Less b a = false)) (hmem : v ∈ l) :
    l.indexOf v = l.countP (fun x => Float64Slice.Less x v) := by
  induction l with
  | nil => simp at hmem
  | cons a t ih =>
    rw [List.pairwise_cons] at hs
    by_cases hav : a = v
    · subst hav
      have hzero : t.countP (fun x => Float64Slice.Less x a) = 0 := by
        rw [List.countP_eq_zero]
        intro x hx
        simp [hs.1 x hx]
      rw [List.indexOf_cons_self, List.countP_cons, hzero, less_irrefl]
      simp
    · have hvt : v ∈ t := by
        rcases List.mem_cons.1 hmem with h | h
        · exact absurd h.symm hav
        · exact h
      have hless : Float64Slice.Less a v = true := by
        rcases less_trichotomy a v with h | h | h
        · exact h
        · exact absurd h hav
        · rw [hs.1 v hvt] at h; exact absurd h (by simp)
      rw [List.indexOf_cons_ne _ (fun h => hav h), List.countP_cons, hless, ih hs.2 hvt]
      simp

/-- For a slice without NaN: the rank of one of its values is one more than the number
of entries strictly below it. -/
theorem rankOf_get_lt (eval : List F64) (hnan : ∀ x ∈ eval, x ≠ F64.nan) (v : F64)
    (hmem : v ∈ eval) :
    RankMap.get (rankOf eval) v = 1 + eval.countP (fun x => F64.lt x v) := by
  rw [rankOf_get eval v (hnan v hmem) hmem, countP_less_eq_lt eval v hnan]

theorem count_lt_mono (eval : List F64) (v w : F64)
    (hv : v ≠ F64.nan) (hw : w ≠ F64.nan) (h : F64.lt w v = false) :
    eval.countP (fun x => F64.lt x v) ≤ eval.countP (fun x => F64.lt x w) := by
  apply List.countP_mono_left
  intro x hx hxv
  rcases f64_lt_trichotomy v w hv hw with h1 | h1 | h1
  · exact f64_lt_trans hxv h1
  · rw [← h1]; exact hxv
  · rw [h1] at h; exact absurd h (by simp)

theorem count_lt_strict (eval : List F64) (v w : F64) (hmem : v ∈ eval)
    (h : F64.lt v w = true) :
    eval.countP (fun x => F64.lt x v) < eval.countP (fun x => F64.lt x w) :=
  countP_lt_of_imp eval _ _ (fun _ _ hx => f64_lt_trans hx h) v hmem h (f64_lt_irrefl v)

/-! ## The rank column -/

/-- C5, for energies without NaN: `outputEvaluation` prints for every row the competition
rank of its energy, one more than the number of entries of `eval` strictly below it, which
is also one more than the first position of that energy in the sorted slice.  Rows of
equal energy share their rank, and the next larger energy has the rank of the tie plus
the number of rows in the tie. -/
theorem printed_rank_is_competition_rank {TruthTable Dense : Type}
    (p : Parameters TruthTable Dense) (isValid : List Bool) (eval : List F64)
    (hlen : eval.length ≤ isValid.length) (hnan : ∀ x ∈ eval, x ≠ F64.nan) :
    ∃ rows, outputEvaluation p isValid eval = some rows ∧ rows.length = eval.length ∧
      (∀ (i : Nat) (row : Row), rows[i]? = some row →
        eval[i]? = some row.v ∧
        row.rank = 1 + eval.countP (fun x => F64.lt x row.v) ∧
        row.rank = (Float64s eval).indexOf row.v + 1) ∧
      (∀ (i j : Nat) (ri rj : Row), rows[i]? = some ri → rows[j]? = some rj → ri.v = rj.v →
        ri.rank = rj.rank) ∧
      (∀ (i j : Nat) (ri rj : Row), rows[i]? = some ri → rows[j]? = some rj → F64.lt ri.v rj.v = true →
        (∀ x ∈ eval, ¬ (F64.lt ri.v x = true ∧ F64.lt x rj.v = true)) →
        rj.rank = ri.rank + eval.countP (fun x => F64.eq x ri.v)) := by
  refine ⟨_, outputEvaluation_eq p isValid eval hlen, by simp, ?_, ?_, ?_⟩
  · intro i row h
    obtain ⟨_, h2, h3, hr, _⟩ := rows_getElem? p isValid eval i row h
    refine ⟨h2, ?_, ?_⟩
    · rw [hr, rankOf_get_lt eval hnan row.v h3]
    · rw [hr, rankOf_get eval row.v (hnan _ h3) h3,
        sorted_indexOf _ _ (Float64s_sorted eval) ((List.Perm.mem_iff (Float64s_perm eval)).2 h3),
        List.Perm.countP_eq _ (Float64s_perm eval)]
      omega
  · intro i j ri rj hi hj hv
    obtain ⟨_, _, _, hr, _⟩ := rows_getElem? p isValid eval i ri hi
    obtain ⟨_, _, _, hr2, _⟩ := rows_getElem? p isValid eval j rj hj
    rw [hr, hr2, hv]
  · intro i j ri rj hi hj hlt hbetween
    obtain ⟨_, _, h3, hr, _⟩ := rows_getElem? p isValid eval i ri hi
    obtain ⟨_, _, h3j, hr2, _⟩ := rows_getElem? p isValid eval j rj hj
    rw [hr, hr2, rankOf_get_lt eval hnan _ h3, rankOf_get_lt eval hnan _ h3j]
    rw [countP_split eval (fun x => F64.lt x rj.v) (fun x => F64.lt x ri.v)
      (fun x => F64.eq x ri.v)]
    · omega
    · intro x hx
      rcases f64_lt_trichotomy x ri.v (hnan x hx) (hnan _ h3) with h | h | h
      · simp [h, f64_lt_trans h hlt]
      · rw [h]
        simp [hlt, (f64_eq_iff ri.v ri.v).2 ⟨hnan _ h3, rfl⟩]
      · have h1 : F64.lt x rj.v = false := by
          rcases hb : F64.lt x rj.v with _ | _
          · rfl
          · exact absurd ⟨h, hb⟩ (hbetween x hx)
        have h2 : F64.lt x ri.v = false := f64_lt_asymm h
        have h3 : F64.eq x ri.v = false := by
          rcases hb : F64.eq x ri.v with _ | _
          · rfl
          · have hxe := ((f64_eq_iff _ _).1 hb).2
            rw [hxe, f64_lt_irrefl] at h
            exact absurd h (by simp)
        simp [h1, h2, h3]
    · intro x _ hboth
      have hxe := ((f64_eq_iff _ _).1 hboth.2).2
      have hl := hboth.1
      rw [hxe, f64_lt_irrefl] at hl
      exact absurd hl (by simp)

theorem printed_rank_is_competition_rank_witness :
    ∃ rows, outputEvaluation exampleParameters [true, false, false, true]
        [F64.fin 1, F64.fin 2, F64.fin 1, F64.fin 0] = some rows ∧
      ∀ (i : Nat) (row : Row), rows[i]? = some row →
        row.rank = 1 + [F64.fin 1, F64.fin 2, F64.fin 1, F64.fin 0].countP
          (fun x => F64.lt x row.v) := by
  obtain ⟨rows, h1, _, h3, _⟩ := printed_rank_is_competition_rank exampleParameters
    [true, false, false, true] [F64.fin 1, F64.fin 2, F64.fin 1, F64.fin 0]
    (by decide) (by simp)
  exact ⟨rows, h1, fun i row h => (h3 i row h).2.1⟩

/-- C5 as stated fails on a NaN energy: for the energies NaN, 1 the ranks printed are 0
and 2, while no entry is strictly below either energy, so the stated rank is 1 for
both. -/
theorem printed_rank_nan_counterexample :
    (outputEvaluation exampleParameters [true, false] [F64.nan, F64.fin 1]).map
      (List.map Row.rank) = some [0, 2] ∧
    1 + [F64.nan, F64.fin 1].countP (fun x => F64.lt x F64.nan) = 1 ∧
    1 + [F64.nan, F64.fin 1].countP (fun x => F64.lt x (F64.fin 1)) = 1 := by
  refine ⟨?_, ?_, ?_⟩
  · simp [outputEvaluation, outputRows, outputRow, rankOf, rankLoop, Float64s,
      Float64s.insert, Float64Slice.Less, RankMap.lookup, RankMap.get, RankMap.set,
      F64.lt, F64.eq, F64.isNaN]
  · simp [F64.lt]
  · simp [F64.lt]

/-- C8, for energies without NaN: the rank printed by `outputEvaluation` preserves the
order of the energies (a strictly lower energy has a strictly lower rank and conversely,
equal energies have equal ranks and conversely), lies between 1 and `len(eval)`, and is
1 for a row of minimum energy. -/
theorem rank_order_preserving_and_bounded {TruthTable Dense : Type}
    (p : Parameters TruthTable Dense) (isValid : List Bool) (eval : List F64)
    (hlen : eval.length ≤ isValid.length) (hnan : ∀ x ∈ eval, x ≠ F64.nan) :
    ∃ rows, outputEvaluation p isValid eval = some rows ∧ rows.length = eval.length ∧
      ∀ (i j : Nat) (ri rj : Row), rows[i]? = some ri → rows[j]? = some rj →
        eval[i]? = some ri.v ∧ eval[j]? = some rj.v ∧
        (F64.lt ri.v rj.v = true ↔ ri.rank < rj.rank) ∧
        (F64.eq ri.v rj.v = true ↔ ri.rank = rj.rank) ∧
        1 ≤ ri.rank ∧ ri.rank ≤ eval.length ∧
        ((∀ x ∈ eval, F64.lt x ri.v = false) → ri.rank = 1) := by
  refine ⟨_, outputEvaluation_eq p isValid eval hlen, by simp, ?_⟩
  intro i j ri rj hi hj
  obtain ⟨_, hei, hmi, hri, _⟩ := rows_getElem? p isValid eval i ri hi
  obtain ⟨_, hej, hmj, hrj, _⟩ := rows_getElem? p isValid eval j rj hj
  rw [hri, hrj, rankOf_get_lt eval hnan _ hmi, rankOf_get_lt eval hnan _ hmj]
  have hni := hnan _ hmi
  have hnj := hnan _ hmj
  refine ⟨hei, hej, ?_, ?_, by omega, ?_, ?_⟩
  · constructor
    · intro h
      have := count_lt_strict eval _ _ hmi h
      omega
    · intro h
      rcases hb : F64.lt ri.v rj.v with _ | _
      · have := count_lt_mono eval rj.v ri.v hnj hni hb
        omega
      · rfl
  · constructor
    · intro h
      rw [((f64_eq_iff _ _).1 h).2]
    · intro h
      rw [f64_eq_iff]
      refine ⟨hni, ?_⟩
      rcases f64_lt_trichotomy ri.v rj.v hni hnj with h1 | h1 | h1
      · have := count_lt_strict eval _ _ hmi h1
        omega
      · exact h1
      · have := count_lt_strict eval _ _ hmj h1
        omega
  · have := countP_lt_of_imp eval (fun x => F64.lt x ri.v) (fun _ => true)
      (fun _ _ _ => rfl) ri.v hmi rfl (f64_lt_irrefl _)
    rw [List.countP_true] at this
    omega
  · intro hmin
    have hzero : eval.countP (fun x => F64.lt x ri.v) = 0 := by
      rw [List.countP_eq_zero]
      intro x hx
      simp [hmin x hx]
    omega

theorem rank_order_preserving_and_bounded_witness :
    ∃ rows, outputEvaluation exampleParameters [true, false, false, true]
        [F64.fin 1, F64.fin 2, F64.fin 1, F64.fin 0] = some rows ∧
      ∀ (i : Nat) (ri : Row), rows[i]? = some ri → 1 ≤ ri.rank ∧ ri.rank ≤ 4 := by
  obtain ⟨rows, h1, _, h3⟩ := rank_order_preserving_and_bounded exampleParameters
    [true, false, false, true] [F64.fin 1, F64.fin 2, F64.fin 1, F64.fin 0]
    (by decide) (by simp)
  exact ⟨rows, h1, fun i ri h => ⟨(h3 i i ri ri h h).2.2.2.2.1, (h3 i i ri ri h h).2.2.2.2.2.1⟩⟩

/-- C8 as stated fails on a NaN energy: for the single energy NaN the rank printed is 0,
below the stated lower bound 1, and the row has the same rank as itself although NaN is
not equal to NaN. -/
theorem rank_bounds_nan_counterexample :
    (outputEvaluation exampleParameters [true] [F64.nan]).map (List.map Row.rank) =
      some [0] ∧
    ¬ (1 ≤ 0) ∧ F64.eq F64.nan F64.nan = false := by
  refine ⟨?_, by decide, rfl⟩
  simp [outputEvaluation, outputRows, outputRow, rankOf, rankLoop, Float64s,
    Float64s.insert, Float64Slice.Less, RankMap.lookup, RankMap.get, RankMap.set,
    F64.lt, F64.eq, F64.isNaN]

/-! ## The misordered flag -/

theorem zip_fst_snd (isValid : List Bool) (eval : List F64)
    (hlen : isValid.length = eval.length) :
    (List.zip isValid eval).map Prod.fst = isValid ∧
    (List.zip isValid eval).map Prod.snd = eval :=
  ⟨List.map_fst_zip _ _ (by omega), List.map_snd_zip _ _ (by omega)⟩

theorem nValid_zip (isValid : List Bool) (eval : List F64)
    (hlen : isValid.length = eval.length) :
    nValidOf isValid = (List.zip isValid eval).countP (fun r => r.1) := by
  rw [nValidOf_eq_countP]
  conv_lhs => rw [← (zip_fst_snd isValid eval hlen).1]
  rw [List.countP_map]
  rfl

theorem count_zip (isValid : List Bool) (eval : List F64)
    (hlen : isValid.length = eval.length) (v : F64) :
    eval.countP (fun x => F64.lt x v) =
      (List.zip isValid eval).countP (fun r => F64.lt r.2 v) := by
  conv_lhs => rw [← (zip_fst_snd isValid eval hlen).2]
  rw [List.countP_map]
  rfl

theorem mem_zip_index (isValid : List Bool) (eval : List F64) (b : Bool) (v : F64) :
    (b, v) ∈ List.zip isValid eval ↔ ∃ i : Nat, isValid[i]? = some b ∧ eval[i]? = some v := by
  rw [List.mem_iff_getElem?]
  constructor
  · rintro ⟨i, h⟩
    exact ⟨i, List.getElem?_zip_eq_some.1 h⟩
  · rintro ⟨i, h⟩
    exact ⟨i, List.getElem?_zip_eq_some.2 h⟩

theorem row_at {TruthTable Dense : Type} (p : Parameters TruthTable Dense)
    (isValid : List Bool) (eval : List F64) (i : Nat) (b : Bool) (v : F64)
    (hb : isValid[i]? = some b) (hv : eval[i]? = some v) :
    ∃ row, ((List.range eval.length).map (fun j =>
        outputRow p.NCols (rankOf eval) (nValidOf isValid)
          (Nat.repr (eval.length + 1)).length j (isValid.getD j false)
          (eval.getD j F64.nan)))[i]? = some row ∧ row.v = v ∧ isValid.getD i false = b := by
  have hi : i < eval.length := by
    by_contra hc
    rw [List.getElem?_eq_none (by omega)] at hv
    simp at hv
  refine ⟨outputRow p.NCols (rankOf eval) (nValidOf isValid)
    (Nat.repr (eval.length + 1)).length i (isValid.getD i false) (eval.getD i F64.nan),
    ?_, ?_, ?_⟩
  · rw [List.getElem?_map, List.getElem?_range hi]
    rfl
  · show eval.getD i F64.nan = v
    rw [List.getD_eq_getElem?_getD, hv]; rfl
  · rw [List.getD_eq_getElem?_getD, hb]; rfl

theorem badRank_ne_X (b : Bool) (r n : Nat) :
    (if b && decide (r > n) then 'X' else if !b && decide (r ≤ n) then 'X' else ' ') ≠ 'X' ↔
      (b = true → r ≤ n) ∧ (b = false → n < r) := by
  cases b
  · by_cases h : r ≤ n
    · simp [h]
    · simp [h]; omega
  · by_cases h : r ≤ n
    · simp [h]
    · simp [h]

/-- C6, for energies without NaN: `outputEvaluation` flags no row with 'X' if and only
if every valid row has a strictly lower energy than every invalid row; so a valid row
whose energy ties with that of an invalid row gives at least one 'X'. -/
theorem no_misordered_flag_iff_separated {TruthTable Dense : Type}
    (p : Parameters TruthTable Dense) (isValid : List Bool) (eval : List F64)
    (hlen : isValid.length = eval.length) (hnan : ∀ x ∈ eval, x ≠ F64.nan) :
    ∃ rows, outputEvaluation p isValid eval = some rows ∧
      ((∀ row ∈ rows, row.badRank ≠ 'X') ↔
        ∀ (i j : Nat) (vi vj : F64), isValid[i]? = some true → eval[i]? = some vi →
          isValid[j]? = some false → eval[j]? = some vj → F64.lt vi vj = true) ∧
      (∀ (i j : Nat) (v : F64), isValid[i]? = some true → eval[i]? = some v →
          isValid[j]? = some false → eval[j]? = some v →
          ∃ row ∈ rows, row.badRank = 'X') := by
  have hiff : (∀ row ∈ (List.range eval.length).map (fun j =>
        outputRow p.NCols (rankOf eval) (nValidOf isValid)
          (Nat.repr (eval.length + 1)).length j (isValid.getD j false)
          (eval.getD j F64.nan)), row.badRank ≠ 'X') ↔
        ∀ (i j : Nat) (vi vj : F64), isValid[i]? = some true → eval[i]? = some vi →
          isValid[j]? = some false → eval[j]? = some vj → F64.lt vi vj = true := by
    constructor
    · intro hno i j vi vj hbi hvi hbj hvj
      obtain ⟨ri, hri, hriv, hrib⟩ := row_at p isValid eval i true vi hbi hvi
      obtain ⟨rj, hrj, hrjv, hrjb⟩ := row_at p isValid eval j false vj hbj hvj
      have hxi := hno ri (List.mem_iff_getElem?.2 ⟨i, hri⟩)
      have hxj := hno rj (List.mem_iff_getElem?.2 ⟨j, hrj⟩)
      obtain ⟨_, _, hmi, _, _, hbadi⟩ := rows_getElem? p isValid eval i ri hri
      obtain ⟨_, _, hmj, _, _, hbadj⟩ := rows_getElem? p isValid eval j rj hrj
      rw [hbadi, badRank_ne_X, hrib, rankOf_get_lt eval hnan _ hmi, hriv] at hxi
      rw [hbadj, badRank_ne_X, hrjb, rankOf_get_lt eval hnan _ hmj, hrjv] at hxj
      have h1 := hxi.1 rfl
      have h2 := hxj.2 rfl
      rw [hriv] at hmi
      rw [hrjv] at hmj
      rcases hb : F64.lt vi vj with _ | _
      · have := count_lt_mono eval vj vi (hnan _ hmj) (hnan _ hmi) hb
        omega
      · rfl
    · intro hsep row hrow
      obtain ⟨i, hi⟩ := List.mem_iff_getElem?.1 hrow
      obtain ⟨hil, hev, hm, _, _, hbad⟩ := rows_getElem? p isValid eval i row hi
      have hbi : isValid[i]? = some (isValid.getD i false) := by
        rw [List.getD_eq_getElem?_getD, List.getElem?_eq_getElem (by omega)]; rfl
      rw [hbad, badRank_ne_X, rankOf_get_lt eval hnan _ hm, nValid_zip isValid eval hlen,
        count_zip isValid eval hlen]
      constructor
      · intro hb
        rw [hb] at hbi
        have := countP_lt_of_imp (List.zip isValid eval) (fun r => F64.lt r.2 row.v)
          (fun r => r.1)
          (by
            rintro ⟨b, w⟩ hmem hlt
            obtain ⟨j, hj1, hj2⟩ := (mem_zip_index isValid eval b w).1 hmem
            cases b
            · have := hsep i j row.v w hbi hev hj1 hj2
              have h2 : F64.lt w row.v = true := hlt
              rw [f64_lt_asymm this] at h2
              exact absurd h2 (by simp)
            · rfl)
          (true, row.v) ((mem_zip_index isValid eval true row.v).2 ⟨i, hbi, hev⟩) rfl
          (f64_lt_irrefl _)
        omega
      · intro hb
        rw [hb] at hbi
        have := List.countP_mono_left (l := List.zip isValid eval) (p := fun r => r.1)
          (q := fun r => F64.lt r.2 row.v)
          (by
            rintro ⟨b, w⟩ hmem hbt
            have hbt1 : b = true := hbt
            subst hbt1
            obtain ⟨j, hj1, hj2⟩ := (mem_zip_index isValid eval true w).1 hmem
            exact hsep j i w row.v hj1 hj2 hbi hev)
        omega
  refine ⟨_, outputEvaluation_eq p isValid eval (by omega), hiff, ?_⟩
  intro i j v hbi hvi hbj hvj
  by_contra hnone
  have hall : ∀ row ∈ (List.range eval.length).map (fun j =>
        outputRow p.NCols (rankOf eval) (nValidOf isValid)
          (Nat.repr (eval.length + 1)).length j (isValid.getD j false)
          (eval.getD j F64.nan)), row.badRank ≠ 'X' := by
    intro row hrow hx
    exact hnone ⟨row, hrow, hx⟩
  have := hiff.1 hall i j v v hbi hvi hbj hvj
  rw [f64_lt_irrefl] at this
  exact absurd this (by simp)

theorem no_misordered_flag_iff_separated_witness :
    ∃ rows, outputEvaluation exampleParameters [true, false, false, true]
        [F64.fin 1, F64.fin 2, F64.fin 1, F64.fin 0] = some rows ∧
      ∃ row ∈ rows, row.badRank = 'X' := by
  obtain ⟨rows, h1, _, h3⟩ := no_misordered_flag_iff_separated exampleParameters
    [true, false, false, true] [F64.fin 1, F64.fin 2, F64.fin 1, F64.fin 0]
    (by decide) (by simp)
  exact ⟨rows, h1, h3 0 2 (F64.fin 1) rfl rfl rfl rfl⟩

/-- C6 as stated fails on a NaN energy: for the energies NaN (a valid row) and 1 (an
invalid row) no row is flagged, although the valid energy is not strictly lower than the
invalid one (`NaN < 1` is false); and the single invalid row of energy NaN is flagged
although there is no valid row at all. -/
theorem misordered_flag_nan_counterexample :
    (outputEvaluation exampleParameters [true, false] [F64.nan, F64.fin 1]).map
      (List.map Row.badRank) = some [' ', ' '] ∧
    F64.lt F64.nan (F64.fin 1) = false ∧
    (outputEvaluation exampleParameters [false] [F64.nan]).map
      (List.map Row.badRank) = some ['X'] := by
  refine ⟨?_, rfl, ?_⟩ <;>
  simp [outputEvaluation, outputRows, outputRow, rankOf, rankLoop, Float64s,
    Float64s.insert, Float64Slice.Less, RankMap.lookup, RankMap.get, RankMap.set,
    F64.lt, F64.eq, F64.isNaN, nValidOf]

/-! ## The row label -/

end QuboGA
